import Mathlib

set_option maxRecDepth 8000

/-!
Verification development for chimerascan's post-alignment analytics
pipeline: the locus clustering of discordant alignments
(`pipeline/cluster_discordant_reads.py`) and the chimera filter pipeline
(`deprecated/filter_chimeras_v2.py`), shallowly embedded in Lean.
-/

/-- Errors of the Python runtime that the embedded code can raise.
`nameError` also covers UnboundLocalError, its subclass. -/
inductive PyError where
  | nameError
  | stopIteration
  deriving DecidableEq, Repr

/-! ### Sorting

Python's `sorted` is modelled by insertion sort over a `LinearOrder`;
`sorted(..., reverse=True)` by the descending variant. -/

/-- Insert into an ascending-sorted list. -/
def insertAsc {α : Type} [LinearOrder α] (x : α) : List α → List α
  | [] => [x]
  | y :: ys => if x ≤ y then x :: y :: ys else y :: insertAsc x ys

/-- Model of Python `sorted`. -/
def sortAsc {α : Type} [LinearOrder α] (l : List α) : List α :=
  l.foldr insertAsc []

/-- Insert into a descending-sorted list. -/
def insertDesc {α : Type} [LinearOrder α] (x : α) : List α → List α
  | [] => [x]
  | y :: ys => if y ≤ x then x :: y :: ys else y :: insertDesc x ys

/-- Model of Python `sorted(..., reverse=True)`. -/
def sortDesc {α : Type} [LinearOrder α] (l : List α) : List α :=
  l.foldr insertDesc []

/-! ### cluster_discordant_reads.py: records and locus windows -/

/-- A discordant alignment record: the fields of a pysam read that
`cluster_discordant_reads.py` consumes (`qname`, `rname`, `pos`, `aend`,
the `XS` genomic-strand tag and the orientation tag). `strand = true`
models `"+"`, and `orientation = true` models `ORIENTATION_5P`. -/
structure DRead where
  qname : String
  rname : Nat
  pos : Int
  aend : Int
  strand : Bool
  orientation : Bool
  deriving DecidableEq, Repr, Inhabited

/-- `window_overlap(a, b)` (lines 16-19): false on differing reference
ids, otherwise `a[1] <= b[2] and b[1] <= a[2]`. -/
def window_overlap (a b : Nat × Int × Int) : Bool :=
  if a.1 ≠ b.1 then false
  else decide (a.2.1 ≤ b.2.2 ∧ b.2.1 ≤ a.2.2)

/-- The `for r in bam_iter` loop of `cluster_loci` (lines 27-41). State:
the pending `window` and its `window_range = (rname, min pos, max aend)`.
Returns the yielded windows, the final window, and the final range. -/
def clusterLoop : List DRead → List DRead → Nat × Int × Int →
    List (List DRead) × List DRead × (Nat × Int × Int)
  | [], window, range => ([], window, range)
  | r :: rest, window, range =>
    if ¬ window_overlap (r.rname, r.pos, r.aend) range then
      -- yield current window, reset window
      let res := clusterLoop rest [r] (r.rname, r.pos, r.aend)
      (window :: res.1, res.2)
    else
      -- add read to window, extend the running bounds
      clusterLoop rest (window ++ [r])
        (range.1, min range.2.1 r.pos, max range.2.2 r.aend)

/-- `cluster_loci(bam_iter)` (lines 21-46). On an empty stream, the
initial `bam_iter.next()` raises StopIteration, which the `except`
swallows before the local `window` is ever bound; the trailing
`len(window) > 0` check then reads the unbound local and raises
UnboundLocalError (a NameError). On a non-empty stream the loop runs and
the final window is yielded when non-empty. -/
def cluster_loci (records : List DRead) : Except PyError (List (List DRead)) :=
  match records with
  | [] => Except.error PyError.nameError
  | r :: rest =>
    let res := clusterLoop rest [r] (r.rname, r.pos, r.aend)
    Except.ok (if res.2.1.length > 0 then res.1 ++ [res.2.1] else res.1)

/-! ### ClusterTree (chimerascan.bx.cluster)

`chimerascan/bx/cluster.py` is not among the sources; only its callers
are. It is therefore modelled from the spec. -/

/-- Modelled from the spec: §4.1 IntervalClusterTree, the missing
`chimerascan.bx.cluster.ClusterTree`. `insert(start, end, label)` merges
the new interval into every existing cluster whose span overlaps it or
lies within the configurable max-gap (default 0); `regions()` produces a
start-ordered sequence of (start, end, labels). The two constructor
arguments of the call `ClusterTree(0, 1)` are the max merge gap and the
minimum number of inserted intervals a reported region must contain. -/
structure ClusterTree where
  gap : Int
  minintervals : Nat
  clusters : List (Int × Int × List Nat)
  deriving DecidableEq, Repr

/-- Fresh tree (the `ClusterTree(gap, minintervals)` constructor). -/
def ClusterTree.make (gap : Int) (minintervals : Nat) : ClusterTree :=
  ⟨gap, minintervals, []⟩

/-- Does the cluster `c` overlap (within the max-gap) a new interval
`[s, e]`? -/
def ClusterTree.hits (t : ClusterTree) (s e : Int) (c : Int × Int × List Nat) :
    Bool :=
  decide (c.1 ≤ e + t.gap ∧ s ≤ c.2.1 + t.gap)

/-- Insert an interval: all clusters it reaches are merged with it into a
single cluster spanning their hull and holding all their labels. -/
def ClusterTree.insert (t : ClusterTree) (s e : Int) (label : Nat) :
    ClusterTree :=
  let ov := t.clusters.filter (t.hits s e)
  let rest := t.clusters.filter (fun c => ¬ t.hits s e c)
  let ms := ov.foldl (fun a c => min a c.1) s
  let me := ov.foldl (fun a c => max a c.2.1) e
  let labels := ov.foldl (fun a c => a ++ c.2.2) [label]
  { t with clusters := rest ++ [(ms, me, labels)] }

/-- Insert a cluster into a list sorted by ascending start coordinate. -/
def insertRegion (x : Int × Int × List Nat) :
    List (Int × Int × List Nat) → List (Int × Int × List Nat)
  | [] => [x]
  | y :: ys => if x.1 ≤ y.1 then x :: y :: ys else y :: insertRegion x ys

/-- `getregions()`: the clusters holding at least `minintervals` inserted
intervals, ordered by start coordinate, each with its sorted label set. -/
def ClusterTree.getregions (t : ClusterTree) : List (Int × Int × List Nat) :=
  ((t.clusters.filter (fun c => decide (t.minintervals ≤ c.2.2.length))).map
    (fun c => (c.1, c.2.1, sortAsc c.2.2))).foldr insertRegion []

/-! ### add_reads_to_clusters (lines 48-79) -/

/-- A row of the emitted cluster table:
`(rname, start, end, cluster_id, strand, orientation, qnames)`. -/
structure ClusterRow where
  rname : Nat
  start : Int
  «end» : Int
  cluster_id : Nat
  strand : Bool
  orientation : Bool
  qnames : List String
  deriving DecidableEq, Repr

/-- The four `(strand, orientation)` buckets of the `cluster_trees` dict
(lines 50-53), in construction order `(+,5P), (+,3P), (-,5P), (-,3P)`.
Python-2 dict iteration order is implementation defined; no claim below
depends on which order is used. -/
def bucketKeys : List (Bool × Bool) :=
  [(true, true), (true, false), (false, true), (false, false)]

/-- The `enumerate(reads)` pairs that land in the bucket `(s, o)` under
the reference id `rn` (lines 54-61). -/
def readsFor (reads : List DRead) (s o : Bool) (rn : Nat) :
    List (Nat × DRead) :=
  reads.enum.filter
    (fun p => decide (p.2.strand = s ∧ p.2.orientation = o ∧ p.2.rname = rn))

/-- The defaultdict tree of one `(strand, orientation, rname)` cell after
all inserts: each read's interval is inserted with its enumerate index as
label (line 61). -/
def treeFor (reads : List DRead) (s o : Bool) (rn : Nat) : ClusterTree :=
  (readsFor reads s o rn).foldl
    (fun t p => t.insert p.2.pos p.2.aend p.1) (ClusterTree.make 0 1)

/-- The rnames present in a bucket, in first-insertion order (the
defaultdict keys). -/
def rnamesFor (reads : List DRead) (s o : Bool) : List Nat :=
  ((reads.filter (fun r => decide (r.strand = s ∧ r.orientation = o))).map
    (fun r => r.rname)).dedup

/-- One region of one tree, before a cluster id is assigned. -/
structure RegionInfo where
  rname : Nat
  start : Int
  «end» : Int
  strand : Bool
  orientation : Bool
  indexes : List Nat
  deriving DecidableEq, Repr

/-- The regions of all buckets in emission order (the nested loops of
lines 64-67). -/
def regionsOf (reads : List DRead) : List RegionInfo :=
  bucketKeys.flatMap (fun so =>
    (rnamesFor reads so.1 so.2).flatMap (fun rn =>
      (treeFor reads so.1 so.2 rn).getregions.map (fun reg =>
        ⟨rn, reg.1, reg.2.1, so.1, so.2, reg.2.2⟩)))

/-- The cluster row built for one region under a given id (lines 68-77);
`qnames` collects `reads[i].qname` over the region's member indexes. -/
def mkClusterRow (reads : List DRead) (reg : RegionInfo) (cid : Nat) :
    ClusterRow :=
  ⟨reg.rname, reg.start, reg.«end», cid, reg.strand, reg.orientation,
   reg.indexes.map (fun i => (reads.getD i default).qname)⟩

/-- The emission loop (lines 67-78): each region is appended with the
current counter value as cluster id, and the counter is incremented. -/
def emitRegions (reads : List DRead) (regions : List RegionInfo)
    (acc : List ClusterRow × Nat) : List ClusterRow × Nat :=
  regions.foldl
    (fun a reg => (a.1 ++ [mkClusterRow reads reg a.2], a.2 + 1)) acc

/-- `add_reads_to_clusters(reads, next_cluster_id)` (lines 48-79),
returning `(clusters, next_cluster_id)`. (The `DISCORDANT_CLUSTER_TAG`
side effect on the member reads is not modelled; no claim concerns it.) -/
def add_reads_to_clusters (reads : List DRead) (next_cluster_id : Nat) :
    List ClusterRow × Nat :=
  emitRegions reads (regionsOf reads) ([], next_cluster_id)

/-- The caller's loop in `cluster_discordant_reads` (lines 89-91): the
returned counter is threaded into the next locus. (As written the loop is
never reached at runtime - `bamfh` is unbound, see below - but this is
what the loop text computes.) -/
def clusterRun (loci : List (List DRead)) (next_cluster_id : Nat) :
    List ClusterRow × Nat :=
  loci.foldl (fun acc locus =>
    let p := add_reads_to_clusters locus acc.2
    (acc.1 ++ p.1, p.2)) ([], next_cluster_id)

/-! ### filter_chimeras_v2.py: data model -/

/-- One partner of a chimera candidate (the fields the filters read). -/
structure Partner where
  tx_name : String
  start : Int
  «end» : Int
  inner_dist : Int
  deriving DecidableEq, Repr

/-- A chimera candidate as produced by `Chimera.parse`
(`chimerascan.lib.chimera` is not among the sources; the accessor methods
the filters call are modelled as fields: `get_weighted_unique_frags`,
`get_num_frags`, `get_num_unique_spanning_positions`, `get_weighted_cov`;
the float score values are modelled as rationals). -/
structure Chimera where
  name : String
  partner5p : Partner
  partner3p : Partner
  weighted_unique_frags : ℚ
  num_frags : Nat
  num_unique_spanning_positions : Nat
  weighted_cov : ℚ
  deriving DecidableEq, Repr

/-! ### The four filters (lines 39-88) -/

/-- `filter_weighted_frags(c, threshold)` (lines 39-46). -/
def filter_weighted_frags (c : Chimera) (threshold : ℚ) : Bool :=
  decide (c.weighted_unique_frags ≥ threshold)

/-- `filter_inner_dist(c, max_isize)` (lines 48-60). -/
def filter_inner_dist (c : Chimera) (max_isize : Int) : Bool :=
  if max_isize ≤ 0 then true
  else if c.partner5p.inner_dist > max_isize then false
  else if c.partner3p.inner_dist > max_isize then false
  else true

/-- An alignment of the wild-type BAM file against the unfused 5'
transcript reference (the fields `filter_chimeric_isoform_fraction`
reads: `qname`, `pos`, `aend`). The read list passed below stands for the
alignments on the reference `GENE_REF_PREFIX + tx_name` of the 5'
partner. -/
structure WtRead where
  qname : String
  pos : Int
  aend : Int
  deriving DecidableEq, Repr

/-- `bamfh.fetch(rname, start, end)`: the reads whose alignment interval
overlaps the half-open window `[start, end)`. -/
def fetchReads (reads : List WtRead) (start stop : Int) : List WtRead :=
  reads.filter (fun r => decide (r.pos < stop ∧ start < r.aend))

/-- `frag_dict[qname]` (lines 76-78): the set of `(pos, aend)` intervals
of the fetched reads of one fragment (set semantics: duplicates
removed). -/
def fragIntervals (fetched : List WtRead) (q : String) : List (Int × Int) :=
  ((fetched.filter (fun r => decide (r.qname = q))).map
    (fun r => (r.pos, r.aend))).dedup

/-- `sorted(intervals)`: Python sorts the interval tuples
lexicographically. -/
def sortIntervals (ivs : List (Int × Int)) : List (Int × Int) :=
  (sortAsc (ivs.map (toLex : Int × Int → Int ×ₗ Int))).map ofLex

/-- The pruning test of line 83:
`sorted_intervals[0][0] < bp < sorted_intervals[-1][1]`. (The empty case
cannot arise for a qname taken from the fetched reads.) -/
def straddlesBreakpoint (bp : Int) (ivs : List (Int × Int)) : Bool :=
  match sortIntervals ivs with
  | [] => false
  | first :: rest => decide (first.1 < bp ∧ bp < (rest.getLastD first).2)

/-- `filter_chimeric_isoform_fraction(c, frac, median_isize, bamfh)`
(lines 64-88). `rlen` is `bamfh.lengths[tid]`, the length of the 5'
transcript reference; `reads` are its alignments. -/
def filter_chimeric_isoform_fraction (c : Chimera) (frac : ℚ)
    (median_isize rlen : Int) (reads : List WtRead) : Bool :=
  let bp := c.partner5p.«end»
  let start := max 0 (bp - median_isize)
  let stop := min rlen (bp + median_isize)
  let fetched := fetchReads reads start stop
  let qnames := (fetched.map (fun r => r.qname)).dedup
  let wildtype_frags :=
    qnames.filter (fun q => straddlesBreakpoint bp (fragIntervals fetched q))
  let num_wildtype_frags := wildtype_frags.length
  let num_chimeric_frags := c.num_frags
  let ratio : ℚ := (num_chimeric_frags : ℚ) / (max num_wildtype_frags 1 : Nat)
  decide (ratio ≥ frac)

/-! ### Blacklist and the per-candidate filter chain (lines 124-177) -/

/-- Decimal digits to a number, for the model of Python `int()`. -/
def parseDigits (ds : List Char) : Option Nat :=
  if ds = [] then none
  else if ds.all (fun c => c.isDigit) then
    some (ds.foldl (fun a c => a * 10 + (c.toNat - 48)) 0)
  else none

/-- Model of Python `int()` on a decimal string, optionally signed; a
string that is not an integer literal is a ValueError, modelled as
`none`. -/
def parsePyInt (s : String) : Option Int :=
  match s.data with
  | '-' :: ds => (parseDigits ds).map (fun n => -(n : Int))
  | ds => (parseDigits ds).map (fun n => (n : Int))

/-- `read_false_pos_file(filename)` (lines 124-132), modelled at field
level: each line is given as its four tab-separated fields, with the
coordinate fields parsed as ints (an unparsable int is a fatal
ValueError, modelled as `none`). -/
def read_false_pos_file (rows : List (String × String × String × String)) :
    Option (List (String × Int × String × Int)) :=
  rows.mapM (fun row =>
    (parsePyInt row.2.1).bind (fun e5 =>
      (parsePyInt row.2.2.2).map (fun s3 => (row.1, e5, row.2.2.1, s3))))

/-- `false_pos_key` (lines 169-170). -/
def false_pos_key (c : Chimera) : String × Int × String × Int :=
  (c.partner5p.tx_name, c.partner5p.«end», c.partner3p.tx_name,
   c.partner3p.start)

/-- The per-candidate decision of the first pass of `filter_chimeras`
(lines 161-177): the `continue` chain of the four filters; a candidate is
written to the intermediate file iff this returns `true`. -/
def chimera_good (c : Chimera) (weighted_unique_frags : ℚ) (max_isize : Int)
    (false_pos_pairs : List (String × Int × String × Int))
    (isoform_fraction : ℚ) (median_isize rlen : Int)
    (reads : List WtRead) : Bool :=
  if ¬ filter_weighted_frags c weighted_unique_frags then false
  else if ¬ filter_inner_dist c max_isize then false
  else if false_pos_key c ∈ false_pos_pairs then false
  else filter_chimeric_isoform_fraction c isoform_fraction median_isize rlen
    reads

/-! ### get_highest_coverage_isoforms (lines 90-122)

`build_tx_cluster_map` and `gene_to_genome_pos`
(`chimerascan.lib.gene_to_genome`) are not among the sources; the two
lookup tables they produce are taken as function parameters. -/

/-- The grouping key of lines 104-110: the transcript-overlap cluster ids
of both partners and the genome coordinates of the two breakpoints
(`gene_to_genome_pos` is applied at `partner5p.end - 1` and at
`partner3p.start`; a genome coordinate is modelled as chromosome ×
position). -/
def chimeraKey (txCluster : String → Nat)
    (txGenomePos : String → Int → String × Int) (c : Chimera) :
    Nat × Nat × (String × Int) × (String × Int) :=
  (txCluster c.partner5p.tx_name, txCluster c.partner3p.tx_name,
   txGenomePos c.partner5p.tx_name (c.partner5p.«end» - 1),
   txGenomePos c.partner3p.tx_name c.partner3p.start)

/-- The ranking tuple of lines 99-102 without the name: Python compares
these tuples lexicographically, modelled by the `Prod.Lex` order. -/
def chimeraTriple (c : Chimera) : Nat ×ₗ ℚ ×ₗ Nat :=
  toLex (c.num_unique_spanning_positions, toLex (c.weighted_cov, c.num_frags))

/-- The names kept for one group (lines 115-121): `stats_dict` maps each
ranking tuple to the names carrying it; the keys are sorted descending
and the names of the first key are kept. -/
def keptForKey (cs : List Chimera) (txCluster : String → Nat)
    (txGenomePos : String → Int → String × Int)
    (k : Nat × Nat × (String × Int) × (String × Int)) : List String :=
  match sortDesc (((cs.filter
      (fun c => decide (chimeraKey txCluster txGenomePos c = k))).map
        chimeraTriple).dedup) with
  | [] => []
  | top :: _ =>
    ((cs.filter (fun c => decide (chimeraKey txCluster txGenomePos c = k))).filter
      (fun c => decide (chimeraTriple c = top))).map (fun c => c.name)

/-- `get_highest_coverage_isoforms` (lines 90-122): group the candidates
by `chimeraKey` and keep, per group, the names tied for the maximal
ranking tuple; the result is the union over the groups. -/
def get_highest_coverage_isoforms (cs : List Chimera)
    (txCluster : String → Nat)
    (txGenomePos : String → Int → String × Int) : List String :=
  ((cs.map (chimeraKey txCluster txGenomePos)).dedup).foldl
    (fun kept k => kept ++ keptForKey cs txCluster txGenomePos k) []

/-! ### Name-resolution model of cluster_discordant_reads (lines 81-102)

Python resolves each name at use time against the bound locals and the
module globals; an unbound name raises NameError. The function body is
embedded statement by statement, keeping exactly the names each statement
uses and binds, and the interpreter below runs it with an arbitrary
iteration count for every loop. -/

/-- A loop-free Python statement: an assignment binding its target, a
write to an output channel, or a bare expression; each carries the names
its expressions read. -/
inductive SimpleStmt where
  | assign : String → List String → SimpleStmt
  | write : String → List String → SimpleStmt
  | expr : List String → SimpleStmt
  deriving DecidableEq, Repr

/-- A statement of a loop body: simple, or a `for` loop over simple
statements. -/
inductive MidStmt where
  | simple : SimpleStmt → MidStmt
  | loopS : String → List String → List SimpleStmt → MidStmt
  deriving DecidableEq, Repr

/-- A top-level statement: simple or a `for` loop whose body may itself
contain loops. -/
inductive TopStmt where
  | mid : MidStmt → TopStmt
  | loopM : String → List String → List MidStmt → TopStmt
  deriving DecidableEq, Repr

/-- Interpreter state: the bound names, the channels written so far (in
order), and the pending error if one was raised. -/
structure PyState where
  bound : List String
  writes : List String
  err : Option PyError
  deriving DecidableEq, Repr

/-- Evaluate one name: raise NameError if it is not bound. -/
def useName (st : PyState) (u : String) : PyState :=
  if st.err.isSome then st
  else if u ∈ st.bound then st
  else { st with err := some PyError.nameError }

/-- Evaluate every name an expression reads. -/
def evalNames (st : PyState) (uses : List String) : PyState :=
  uses.foldl useName st

/-- Bind an assignment target. -/
def bindName (st : PyState) (x : String) : PyState :=
  if st.err.isSome then st else { st with bound := x :: st.bound }

/-- Record a write to an output channel. -/
def emitWrite (st : PyState) (ch : String) : PyState :=
  if st.err.isSome then st else { st with writes := st.writes ++ [ch] }

/-- Run one loop-free statement. -/
def runSimple (st : PyState) : SimpleStmt → PyState
  | .assign x uses => bindName (evalNames st uses) x
  | .write ch uses => emitWrite (evalNames st uses) ch
  | .expr uses => evalNames st uses

/-- Run a list of loop-free statements. -/
def runSimpleList (st : PyState) (body : List SimpleStmt) : PyState :=
  body.foldl runSimple st

/-- Iterate a loop of loop-free statements, binding the loop target each
iteration and stopping on a raised error. -/
def runSimpleLoopGo : Nat → String → List SimpleStmt → PyState → PyState
  | 0, _, _, st => st
  | m + 1, tgt, body, st =>
    let st' := runSimpleList (bindName st tgt) body
    if st'.err.isSome then st' else runSimpleLoopGo m tgt body st'

/-- Run a loop of loop-free statements `n` times; a pending error skips
the loop. -/
def runSimpleLoop (n : Nat) (tgt : String) (body : List SimpleStmt)
    (st : PyState) : PyState :=
  if st.err.isSome then st else runSimpleLoopGo n tgt body st

/-- Run one mid-level statement (`iters` is the iteration count used for
every loop; the iterable's names are evaluated before any iteration). -/
def runMid (iters : Nat) (st : PyState) : MidStmt → PyState
  | .simple s => runSimple st s
  | .loopS tgt uses body => runSimpleLoop iters tgt body (evalNames st uses)

/-- Run a list of mid-level statements. -/
def runMidList (iters : Nat) (st : PyState) (body : List MidStmt) : PyState :=
  body.foldl (runMid iters) st

/-- Iterate a loop of mid-level statements, stopping on a raised
error. -/
def runMidLoopGo (iters : Nat) : Nat → String → List MidStmt → PyState →
    PyState
  | 0, _, _, st => st
  | m + 1, tgt, body, st =>
    let st' := runMidList iters (bindName st tgt) body
    if st'.err.isSome then st' else runMidLoopGo iters m tgt body st'

/-- Run a loop of mid-level statements `n` times; a pending error skips
the loop. -/
def runMidLoop (iters n : Nat) (tgt : String) (body : List MidStmt)
    (st : PyState) : PyState :=
  if st.err.isSome then st else runMidLoopGo iters n tgt body st

/-- Run one top-level statement. -/
def runTop (iters : Nat) (st : PyState) : TopStmt → PyState
  | .mid m => runMid iters st m
  | .loopM tgt uses body => runMidLoop iters iters tgt body (evalNames st uses)

/-- Run a list of top-level statements. -/
def runTopList (iters : Nat) (st : PyState) (prog : List TopStmt) : PyState :=
  prog.foldl (runTop iters) st

/-- The names bound at module level in `cluster_discordant_reads.py`
(imports and the four function definitions) together with the Python
builtins the function uses. `bamfh` is bound in other modules of the
package but not in this one. -/
def cdrModuleGlobals : List String :=
  ["logging", "argparse", "sys", "collections", "ClusterTree", "Interval",
   "IntervalTree", "pysam", "ORIENTATION_TAG", "ORIENTATION_5P",
   "ORIENTATION_3P", "DISCORDANT_CLUSTER_TAG", "window_overlap",
   "cluster_loci", "add_reads_to_clusters", "cluster_discordant_reads",
   "main", "open", "iter", "len", "map", "str", "enumerate", "min", "max"]

/-- The four parameters of `cluster_discordant_reads` (lines 81-84). -/
def cdrParams : List String :=
  ["discordant_bam_file", "concordant_bam_file", "output_bam_file",
   "output_cluster_file"]

/-- The body of `cluster_discordant_reads` (lines 85-102), one entry per
statement; a Python tuple assignment is one bind per target with the
right-hand side's names, and a tuple unpack is one bind per component. -/
def cdrBody : List TopStmt :=
  [.mid (.simple (.assign ("discordant_bamfh")
      ["pysam", "discordant_bam_file"])),
   .mid (.simple (.assign ("concordant_bamfh")
      ["pysam", "concordant_bam_file"])),
   .mid (.simple (.assign ("outbamfh")
      ["pysam", "output_bam_file", "discordant_bamfh"])),
   .mid (.simple (.assign ("outfh") ["open", "output_cluster_file"])),
   .mid (.simple (.assign ("next_cluster_id") [])),
   -- line 90: for locus_reads in cluster_loci(iter(bamfh)):
   .loopM ("locus_reads") ["cluster_loci", "iter", "bamfh"]
     [.simple (.assign ("locus_clusters")
        ["add_reads_to_clusters", "locus_reads", "next_cluster_id"]),
      .simple (.assign ("next_cluster_id")
        ["add_reads_to_clusters", "locus_reads", "next_cluster_id"]),
      -- lines 92-96: for cluster in locus_clusters: ...
      .loopS ("cluster") ["locus_clusters"]
        [.assign ("rname") ["cluster"], .assign ("start") ["cluster"],
         .assign ("end") ["cluster"], .assign ("cluster_id") ["cluster"],
         .assign ("strand") ["cluster"], .assign ("orientation") ["cluster"],
         .assign ("qnames") ["cluster"],
         -- line 94: fields = [bamfh.getrname(rname), start, ...]
         .assign ("fields")
           ["bamfh", "rname", "start", "end", "cluster_id", "strand",
            "len", "qnames"],
         .assign ("fields") ["map", "str", "fields"],
         -- line 96: print >>outfh, cluster row
         .write ("outfh") ["outfh", "fields"]],
      -- lines 97-98: for r in locus_reads: outbamfh.write(r)
      .loopS ("r") ["locus_reads"] [.write ("outbamfh") ["outbamfh", "r"]]],
   -- lines 99-102: the close() calls
   .mid (.simple (.expr ["outfh"])),
   .mid (.simple (.expr ["outbamfh"])),
   .mid (.simple (.expr ["concordant_bamfh"])),
   .mid (.simple (.expr ["discordant_bamfh"]))]

/-- Run `cluster_discordant_reads` with every loop iterating `iters`
times. -/
def runCDR (iters : Nat) : PyState :=
  runTopList iters ⟨cdrParams ++ cdrModuleGlobals, [], none⟩ cdrBody

/-- The assignment targets of a loop-free statement. -/
def simpleTargets : SimpleStmt → List String
  | .assign x _ => [x]
  | _ => []

/-- The names a mid-level statement can bind. -/
def midTargets : MidStmt → List String
  | .simple s => simpleTargets s
  | .loopS tgt _ body => tgt :: body.flatMap simpleTargets

/-- The names a top-level statement can bind. -/
def topTargets : TopStmt → List String
  | .mid m => midTargets m
  | .loopM tgt _ body => tgt :: body.flatMap midTargets

/-! ### The claim-side wild-type count and the count the code computes -/

/-- Modelled from the spec: the wild-type fragment count as the claim
words it - the number of distinct fragments (grouped by query name) among
the reads fetched from the window whose combined alignment intervals
strictly straddle the breakpoint, minimum start < bp < maximum end. -/
def claim_wildtype_frag_count (bp median_isize rlen : Int)
    (reads : List WtRead) : Nat :=
  let fetched := fetchReads reads (max 0 (bp - median_isize))
    (min rlen (bp + median_isize))
  (((fetched.map (fun r => r.qname)).dedup).filter (fun q =>
    let ivs := fragIntervals fetched q
    decide ((∃ iv ∈ ivs, iv.1 < bp) ∧ ∃ iv ∈ ivs, bp < iv.2))).length

/-- The wild-type fragment count the code computes, stated directly: a
fragment counts iff some interval of it starts before the breakpoint and
the lexicographically greatest of its intervals ends after the
breakpoint. -/
def amended_wildtype_frag_count (bp median_isize rlen : Int)
    (reads : List WtRead) : Nat :=
  let fetched := fetchReads reads (max 0 (bp - median_isize))
    (min rlen (bp + median_isize))
  (((fetched.map (fun r => r.qname)).dedup).filter (fun q =>
    let ivs := fragIntervals fetched q
    decide ((∃ iv ∈ ivs, iv.1 < bp) ∧
      ∃ iv ∈ ivs, (∀ jv ∈ ivs, toLex jv ≤ toLex iv) ∧ bp < iv.2))).length

/-! ### Concrete inputs used by counterexamples and witnesses -/

/-- Fold a list of labelled intervals into a fresh `ClusterTree(0, 1)`. -/
def insertAll (ivs : List (Int × Int × Nat)) : ClusterTree :=
  ivs.foldl (fun t iv => t.insert iv.1 iv.2.1 iv.2.2) (ClusterTree.make 0 1)

/-- Two records violating the (reference id, start) sort precondition:
the second starts before the first on the same reference. -/
def c2ReadHigh : DRead := ⟨"r1", 0, 50, 60, true, true⟩

/-- See `c2ReadHigh`. -/
def c2ReadLow : DRead := ⟨"r2", 0, 0, 10, true, true⟩

/-- The record (chr1, 0, 10) of the spec's three-record example. -/
def c7Read1 : DRead := ⟨"r1", 0, 0, 10, true, true⟩

/-- The record (chr1, 5, 15). -/
def c7Read2 : DRead := ⟨"r2", 0, 5, 15, true, true⟩

/-- The record (chr1, 50, 60). -/
def c7Read3 : DRead := ⟨"r3", 0, 50, 60, true, true⟩

/-- A candidate whose 5' breakpoint is at transcript offset 50 and that
is supported by one chimeric fragment. -/
def c6Chimera : Chimera :=
  ⟨"C6", ⟨"TX5", 0, 50, 10⟩, ⟨"TX3", 0, 40, 10⟩, 5, 1, 0, 1⟩

/-- Wild-type reads: fragment `a` has intervals (0,100) and (5,10) - its
combined span straddles the breakpoint 50 but the lexicographically last
interval (5,10) ends before it; fragment `b` has the single interval
(0,60), which straddles. -/
def c6Reads : List WtRead := [⟨"a", 0, 100⟩, ⟨"a", 5, 10⟩, ⟨"b", 0, 60⟩]

/-- A candidate passing every numeric filter under the witness
parameters. -/
def c5Chimera : Chimera :=
  ⟨"C5", ⟨"TX5", 0, 50, 10⟩, ⟨"TX3", 40, 90, 10⟩, 5, 2, 0, 1⟩

/-- A one-line blacklist, already split into fields. -/
def c5Rows : List (String × String × String × String) :=
  [("TX5", "50", "TX3", "40")]

/-- The parse of `c5Rows`. -/
def c5FalsePos : List (String × Int × String × Int) :=
  [("TX5", 50, "TX3", 40)]

/-! ### Lemmas: the sorting helpers -/

theorem mem_insertAsc {α : Type} [LinearOrder α] {a x : α} {l : List α} :
    a ∈ insertAsc x l ↔ a = x ∨ a ∈ l := by
  induction l with
  | nil => simp [insertAsc]
  | cons y ys ih =>
    by_cases h : x ≤ y
    · simp [insertAsc, h]
    · simp only [insertAsc, if_neg h, List.mem_cons, ih]
      tauto

theorem mem_sortAsc {α : Type} [LinearOrder α] {a : α} {l : List α} :
    a ∈ sortAsc l ↔ a ∈ l := by
  induction l with
  | nil => simp [sortAsc]
  | cons x xs ih =>
    show a ∈ insertAsc x (sortAsc xs) ↔ _
    rw [mem_insertAsc, ih]
    simp

theorem pairwise_insertAsc {α : Type} [LinearOrder α] {x : α} {l : List α}
    (h : l.Pairwise (· ≤ ·)) : (insertAsc x l).Pairwise (· ≤ ·) := by
  induction l with
  | nil => simp [insertAsc]
  | cons y ys ih =>
    rcases List.pairwise_cons.mp h with ⟨hy, hys⟩
    by_cases hxy : x ≤ y
    · simp only [insertAsc, if_pos hxy]
      refine List.pairwise_cons.mpr ⟨?_, h⟩
      intro b hb
      rcases List.mem_cons.mp hb with rfl | hb
      · exact hxy
      · exact le_trans hxy (hy b hb)
    · simp only [insertAsc, if_neg hxy]
      refine List.pairwise_cons.mpr ⟨?_, ih hys⟩
      intro b hb
      rcases mem_insertAsc.mp hb with rfl | hb
      · exact le_of_not_le hxy
      · exact hy b hb

theorem pairwise_sortAsc {α : Type} [LinearOrder α] {l : List α} :
    (sortAsc l).Pairwise (· ≤ ·) := by
  induction l with
  | nil => simp [sortAsc]
  | cons x xs ih => exact pairwise_insertAsc ih

theorem mem_insertDesc {α : Type} [LinearOrder α] {a x : α} {l : List α} :
    a ∈ insertDesc x l ↔ a = x ∨ a ∈ l := by
  induction l with
  | nil => simp [insertDesc]
  | cons y ys ih =>
    by_cases h : y ≤ x
    · simp [insertDesc, h]
    · simp only [insertDesc, if_neg h, List.mem_cons, ih]
      tauto

theorem mem_sortDesc {α : Type} [LinearOrder α] {a : α} {l : List α} :
    a ∈ sortDesc l ↔ a ∈ l := by
  induction l with
  | nil => simp [sortDesc]
  | cons x xs ih =>
    show a ∈ insertDesc x (sortDesc xs) ↔ _
    rw [mem_insertDesc, ih]
    simp

theorem pairwise_insertDesc {α : Type} [LinearOrder α] {x : α} {l : List α}
    (h : l.Pairwise (fun a b => b ≤ a)) :
    (insertDesc x l).Pairwise (fun a b => b ≤ a) := by
  induction l with
  | nil => simp [insertDesc]
  | cons y ys ih =>
    rcases List.pairwise_cons.mp h with ⟨hy, hys⟩
    by_cases hxy : y ≤ x
    · simp only [insertDesc, if_pos hxy]
      refine List.pairwise_cons.mpr ⟨?_, h⟩
      intro b hb
      rcases List.mem_cons.mp hb with rfl | hb
      · exact hxy
      · exact le_trans (hy b hb) hxy
    · simp only [insertDesc, if_neg hxy]
      refine List.pairwise_cons.mpr ⟨?_, ih hys⟩
      intro b hb
      rcases mem_insertDesc.mp hb with rfl | hb
      · exact le_of_not_le hxy
      · exact hy b hb

theorem pairwise_sortDesc {α : Type} [LinearOrder α] {l : List α} :
    (sortDesc l).Pairwise (fun a b => b ≤ a) := by
  induction l with
  | nil => simp [sortDesc]
  | cons x xs ih => exact pairwise_insertDesc ih

theorem sortDesc_head_max {α : Type} [LinearOrder α] {l : List α} {top : α}
    {rest : List α} (hs : sortDesc l = top :: rest) {a : α} (ha : a ∈ l) :
    a ≤ top := by
  have h1 : a ∈ sortDesc l := mem_sortDesc.mpr ha
  have hp : (sortDesc l).Pairwise (fun a b => b ≤ a) := pairwise_sortDesc
  rw [hs] at h1 hp
  rcases List.mem_cons.mp h1 with rfl | h1
  · exact le_refl a
  · exact (List.pairwise_cons.mp hp).1 a h1

theorem pairwise_le_getLastD {α : Type} [LinearOrder α] :
    ∀ {t : List α} {h a : α}, (h :: t).Pairwise (· ≤ ·) → a ∈ h :: t →
      a ≤ t.getLastD h := by
  intro t
  induction t with
  | nil =>
    intro h a _ ha
    rcases List.mem_cons.mp ha with rfl | ha
    · exact le_refl a
    · simp at ha
  | cons b t' ih =>
    intro h a hp ha
    rcases List.pairwise_cons.mp hp with ⟨hh, hp'⟩
    rw [List.getLastD_cons]
    rcases List.mem_cons.mp ha with rfl | ha'
    · exact le_trans (hh b (List.mem_cons_self b t'))
        (ih hp' (List.mem_cons_self b t'))
    · exact ih hp' ha'

theorem getLastD_mem {α : Type} :
    ∀ (t : List α) (h : α), t.getLastD h ∈ h :: t := by
  intro t
  induction t with
  | nil => intro h; simp
  | cons b t' ih =>
    intro h
    rw [List.getLastD_cons]
    exact List.mem_cons_of_mem h (ih b)

theorem sortAsc_head_min {α : Type} [LinearOrder α] {l : List α} {h0 : α}
    {t : List α} (hs : sortAsc l = h0 :: t) {a : α} (ha : a ∈ l) : h0 ≤ a := by
  have h1 : a ∈ sortAsc l := mem_sortAsc.mpr ha
  have hp : (sortAsc l).Pairwise (· ≤ ·) := pairwise_sortAsc
  rw [hs] at h1 hp
  rcases List.mem_cons.mp h1 with rfl | h1
  · exact le_refl a
  · exact (List.pairwise_cons.mp hp).1 a h1

theorem sortAsc_last_max {α : Type} [LinearOrder α] {l : List α} {h0 : α}
    {t : List α} (hs : sortAsc l = h0 :: t) {a : α} (ha : a ∈ l) :
    a ≤ t.getLastD h0 := by
  have h1 : a ∈ sortAsc l := mem_sortAsc.mpr ha
  have hp : (sortAsc l).Pairwise (· ≤ ·) := pairwise_sortAsc
  rw [hs] at h1 hp
  exact pairwise_le_getLastD hp h1

theorem getLastD_map {α β : Type} (f : α → β) :
    ∀ (l : List α) (d : α), (l.map f).getLastD (f d) = f (l.getLastD d) := by
  intro l
  induction l with
  | nil => intro d; rfl
  | cons b t ih =>
    intro d
    rw [List.map_cons, List.getLastD_cons, List.getLastD_cons]
    exact ih b

/-! ### Lemmas: generic list folds -/

theorem mem_foldl_append {α β : Type} (f : β → List α) :
    ∀ (keys : List β) (init : List α) (x : α),
      (x ∈ keys.foldl (fun a k => a ++ f k) init ↔
        x ∈ init ∨ ∃ k ∈ keys, x ∈ f k) := by
  intro keys
  induction keys with
  | nil => intro init x; simp
  | cons k ks ih =>
    intro init x
    rw [List.foldl_cons, ih]
    simp only [List.mem_append, List.mem_cons]
    constructor
    · rintro (⟨h | h⟩ | ⟨k', hk', hx⟩)
      · exact Or.inl h
      · exact Or.inr ⟨k, Or.inl rfl, h⟩
      · exact Or.inr ⟨k', Or.inr hk', hx⟩
    · rintro (h | ⟨k', (rfl | hk'), hx⟩)
      · exact Or.inl (Or.inl h)
      · exact Or.inl (Or.inr hx)
      · exact Or.inr ⟨k', hk', hx⟩

/-! ### Lemmas: the cluster_loci loop -/

theorem clusterLoop_invariant :
    ∀ (rest window : List DRead) (range : Nat × Int × Int),
      window ≠ [] →
      ((clusterLoop rest window range).1.flatten ++
          (clusterLoop rest window range).2.1 = window ++ rest)
      ∧ (∀ w ∈ (clusterLoop rest window range).1, w ≠ [])
      ∧ (clusterLoop rest window range).2.1 ≠ [] := by
  intro rest
  induction rest with
  | nil =>
    intro window range hw
    simp [clusterLoop, hw]
  | cons r rest' ih =>
    intro window range hw
    by_cases hov : ¬ window_overlap (r.rname, r.pos, r.aend) range
    · have step : clusterLoop (r :: rest') window range
          = (window :: (clusterLoop rest' [r] (r.rname, r.pos, r.aend)).1,
             (clusterLoop rest' [r] (r.rname, r.pos, r.aend)).2) := by
        simp [clusterLoop, hov]
      rcases ih [r] (r.rname, r.pos, r.aend) (by simp) with ⟨h1, h2, h3⟩
      refine ⟨?_, ?_, ?_⟩
      · rw [step]
        simp only [List.flatten_cons, List.append_assoc, h1]
        simp
      · rw [step]
        intro w hmem
        rcases List.mem_cons.mp hmem with rfl | hmem
        · exact hw
        · exact h2 w hmem
      · rw [step]
        exact h3
    · have step : clusterLoop (r :: rest') window range
          = clusterLoop rest' (window ++ [r])
              (range.1, min range.2.1 r.pos, max range.2.2 r.aend) := by
        simp [clusterLoop, hov]
      rcases ih (window ++ [r])
          (range.1, min range.2.1 r.pos, max range.2.2 r.aend)
          (by simp) with ⟨h1, h2, h3⟩
      refine ⟨?_, ?_, ?_⟩
      · rw [step, h1]
        simp
      · rw [step]; exact h2
      · rw [step]; exact h3

theorem cluster_loci_ok :
    ∀ (records : List DRead), records ≠ [] →
      ∃ loci, cluster_loci records = Except.ok loci ∧
        loci.flatten = records ∧ ∀ w ∈ loci, w ≠ [] := by
  intro records hne
  match records with
  | r :: rest =>
    rcases clusterLoop_invariant rest [r] (r.rname, r.pos, r.aend) (by simp)
      with ⟨h1, h2, h3⟩
    refine ⟨(clusterLoop rest [r] (r.rname, r.pos, r.aend)).1 ++
      [(clusterLoop rest [r] (r.rname, r.pos, r.aend)).2.1], ?_, ?_, ?_⟩
    · simp only [cluster_loci]
      rw [if_pos (by simpa [List.length_pos] using h3)]
    · rw [List.flatten_append]
      simpa using h1
    · intro w hw
      rcases List.mem_append.mp hw with hw | hw
      · exact h2 w hw
      · rcases List.mem_singleton.mp hw with rfl
        exact h3

/-! ### Lemmas: cluster-id assignment -/

theorem emitRegions_ids (reads : List DRead) :
    ∀ (regions : List RegionInfo) (cs : List ClusterRow) (n : Nat),
      ((emitRegions reads regions (cs, n)).1.map (fun r => r.cluster_id)
          = cs.map (fun r => r.cluster_id) ++ List.range' n regions.length)
      ∧ (emitRegions reads regions (cs, n)).2 = n + regions.length := by
  intro regions
  induction regions with
  | nil => intro cs n; simp [emitRegions]
  | cons reg rest ih =>
    intro cs n
    have step : emitRegions reads (reg :: rest) (cs, n)
        = emitRegions reads rest (cs ++ [mkClusterRow reads reg n], n + 1) :=
      rfl
    rw [step]
    rcases ih (cs ++ [mkClusterRow reads reg n]) (n + 1) with ⟨h1, h2⟩
    constructor
    · rw [h1, List.map_append, List.length_cons, List.range'_succ]
      simp [mkClusterRow]
    · rw [h2, List.length_cons]
      omega

theorem add_reads_to_clusters_ids (reads : List DRead) (n : Nat) :
    ((add_reads_to_clusters reads n).1.map (fun r => r.cluster_id)
        = List.range' n (add_reads_to_clusters reads n).1.length)
    ∧ (add_reads_to_clusters reads n).2
        = n + (add_reads_to_clusters reads n).1.length := by
  rcases emitRegions_ids reads (regionsOf reads) [] n with ⟨h1, h2⟩
  have hlen : (add_reads_to_clusters reads n).1.length
      = (regionsOf reads).length := by
    have := congrArg List.length h1
    simpa [add_reads_to_clusters] using this
  constructor
  · rw [add_reads_to_clusters] at hlen ⊢
    rw [h1, hlen]
    simp
  · rw [add_reads_to_clusters] at hlen ⊢
    rw [h2, hlen]

theorem clusterRun_ids_aux :
    ∀ (loci : List (List DRead)) (cs : List ClusterRow) (a : Nat),
      cs.map (fun r => r.cluster_id) = List.range' a cs.length →
      ((loci.foldl (fun acc locus =>
            let p := add_reads_to_clusters locus acc.2
            (acc.1 ++ p.1, p.2)) (cs, a + cs.length)).1.map
          (fun r => r.cluster_id)
        = List.range' a (loci.foldl (fun acc locus =>
            let p := add_reads_to_clusters locus acc.2
            (acc.1 ++ p.1, p.2)) (cs, a + cs.length)).1.length)
      ∧ (loci.foldl (fun acc locus =>
            let p := add_reads_to_clusters locus acc.2
            (acc.1 ++ p.1, p.2)) (cs, a + cs.length)).2
          = a + (loci.foldl (fun acc locus =>
            let p := add_reads_to_clusters locus acc.2
            (acc.1 ++ p.1, p.2)) (cs, a + cs.length)).1.length := by
  intro loci
  induction loci with
  | nil =>
    intro cs a hcs
    exact ⟨hcs, rfl⟩
  | cons locus rest ih =>
    intro cs a hcs
    rcases add_reads_to_clusters_ids locus (a + cs.length) with ⟨g1, g2⟩
    have hmap : (cs ++ (add_reads_to_clusters locus (a + cs.length)).1).map
        (fun r => r.cluster_id)
        = List.range' a
            (cs ++ (add_reads_to_clusters locus (a + cs.length)).1).length := by
      rw [List.map_append, hcs, g1, List.length_append]
      have h := List.range'_append a cs.length
        (add_reads_to_clusters locus (a + cs.length)).1.length 1
      simp only [Nat.one_mul] at h
      rw [Nat.add_comm cs.length
        ((add_reads_to_clusters locus (a + cs.length)).1.length)]
      exact h
    have hnext : (add_reads_to_clusters locus (a + cs.length)).2
        = a + (cs ++ (add_reads_to_clusters locus (a + cs.length)).1).length := by
      rw [g2, List.length_append]
      omega
    have step : ((locus :: rest).foldl (fun acc locus =>
          let p := add_reads_to_clusters locus acc.2
          (acc.1 ++ p.1, p.2)) (cs, a + cs.length))
        = (rest.foldl (fun acc locus =>
          let p := add_reads_to_clusters locus acc.2
          (acc.1 ++ p.1, p.2))
          (cs ++ (add_reads_to_clusters locus (a + cs.length)).1,
           (add_reads_to_clusters locus (a + cs.length)).2)) := rfl
    rw [step, hnext]
    exact ih _ a hmap

/-! ### Lemmas: highest-coverage isoform selection -/

theorem mem_keptForKey {cs : List Chimera} {txCluster : String → Nat}
    {txGenomePos : String → Int → String × Int}
    {k : Nat × Nat × (String × Int) × (String × Int)} {n : String} :
    n ∈ keptForKey cs txCluster txGenomePos k ↔
      ∃ c ∈ cs, chimeraKey txCluster txGenomePos c = k ∧ c.name = n ∧
        ∀ c' ∈ cs, chimeraKey txCluster txGenomePos c' = k →
          chimeraTriple c' ≤ chimeraTriple c := by
  unfold keptForKey
  split
  next heq =>
    simp only [List.not_mem_nil, false_iff]
    rintro ⟨c, hc, hkey, -, -⟩
    have hmem : chimeraTriple c ∈ sortDesc (((cs.filter
        (fun c => decide (chimeraKey txCluster txGenomePos c = k))).map
          chimeraTriple).dedup) := by
      exact mem_sortDesc.mpr (List.mem_dedup.mpr (List.mem_map_of_mem _
        (List.mem_filter.mpr ⟨hc, by simpa using hkey⟩)))
    rw [heq] at hmem
    exact absurd hmem (List.not_mem_nil _)
  next top rest heq =>
    constructor
    · intro hmem
      rcases List.mem_map.mp hmem with ⟨c, hcf, rfl⟩
      rcases List.mem_filter.mp hcf with ⟨hcs', htop⟩
      rcases List.mem_filter.mp hcs' with ⟨hc, hkey⟩
      have hkey' : chimeraKey txCluster txGenomePos c = k := by
        simpa using hkey
      have htop' : chimeraTriple c = top := by simpa using htop
      refine ⟨c, hc, hkey', rfl, ?_⟩
      intro c' hc' hkey''
      have hmem' : chimeraTriple c' ∈ ((cs.filter
          (fun c => decide (chimeraKey txCluster txGenomePos c = k))).map
            chimeraTriple).dedup :=
        List.mem_dedup.mpr (List.mem_map_of_mem _
          (List.mem_filter.mpr ⟨hc', by simpa using hkey''⟩))
      have := sortDesc_head_max heq hmem'
      rw [htop']
      exact this
    · rintro ⟨c, hc, hkey, rfl, hmax⟩
      have htopmem : top ∈ ((cs.filter
          (fun c => decide (chimeraKey txCluster txGenomePos c = k))).map
            chimeraTriple).dedup := by
        have : top ∈ sortDesc (((cs.filter
            (fun c => decide (chimeraKey txCluster txGenomePos c = k))).map
              chimeraTriple).dedup) := by
          rw [heq]; exact List.mem_cons_self top rest
        exact mem_sortDesc.mp this
      rcases List.mem_map.mp (List.mem_dedup.mp htopmem) with ⟨c'', hc''f, hc''top⟩
      rcases List.mem_filter.mp hc''f with ⟨hc'', hkey''⟩
      have hle1 : chimeraTriple c'' ≤ chimeraTriple c :=
        hmax c'' hc'' (by simpa using hkey'')
      have hle2 : chimeraTriple c ≤ top := by
        refine sortDesc_head_max heq ?_
        exact List.mem_dedup.mpr (List.mem_map_of_mem _
          (List.mem_filter.mpr ⟨hc, by simpa using hkey⟩))
      have htopc : chimeraTriple c = top :=
        le_antisymm hle2 (hc''top ▸ hle1)
      refine List.mem_map_of_mem _ ?_
      refine List.mem_filter.mpr ⟨?_, by simpa using htopc⟩
      exact List.mem_filter.mpr ⟨hc, by simpa using hkey⟩

/-! ### Lemmas: the breakpoint-straddle test -/

theorem sortIntervals_eq_nil {ivs : List (Int × Int)}
    (h : sortIntervals ivs = []) : ivs = [] := by
  cases ivs with
  | nil => rfl
  | cons a l =>
    exfalso
    have hmem : toLex a ∈ sortAsc ((a :: l).map toLex) :=
      mem_sortAsc.mpr (List.mem_map_of_mem _ (List.mem_cons_self a l))
    have : sortAsc ((a :: l).map toLex) = [] := by
      have := congrArg (List.map (ofLex : Int ×ₗ Int → Int × Int)) h
      simpa [sortIntervals] using List.map_eq_nil_iff.mp h
    rw [this] at hmem
    exact absurd hmem (List.not_mem_nil _)

theorem straddles_iff (bp : Int) (ivs : List (Int × Int)) :
    straddlesBreakpoint bp ivs = true ↔
      ((∃ iv ∈ ivs, iv.1 < bp) ∧
        ∃ iv ∈ ivs, (∀ jv ∈ ivs, toLex jv ≤ toLex iv) ∧ bp < iv.2) := by
  unfold straddlesBreakpoint
  split
  next heq =>
    have : ivs = [] := sortIntervals_eq_nil heq
    subst this
    simp
  next first rest heq =>
    -- pass to the Lex-space sorted list
    rcases hS : sortAsc (ivs.map (toLex : Int × Int → Int ×ₗ Int)) with _ | ⟨h0, t0⟩
    · rw [sortIntervals, hS] at heq
      simp at heq
    have heq' : (ofLex h0 : Int × Int) :: t0.map ofLex = first :: rest := by
      rw [sortIntervals, hS] at heq
      simpa using heq
    have hfirst : first = ofLex h0 := by
      have := (List.cons.injEq _ _ _ _).mp heq'
      exact this.1.symm
    have hrest : rest = t0.map ofLex := by
      have := (List.cons.injEq _ _ _ _).mp heq'
      exact this.2.symm
    have hlast : rest.getLastD first = ofLex (t0.getLastD h0) := by
      rw [hfirst, hrest]
      exact getLastD_map ofLex t0 h0
    have hh0mem : (ofLex h0 : Int × Int) ∈ ivs := by
      have : h0 ∈ ivs.map (toLex : Int × Int → Int ×ₗ Int) := by
        have : h0 ∈ sortAsc (ivs.map toLex) := by
          rw [hS]; exact List.mem_cons_self h0 t0
        exact mem_sortAsc.mp this
      rcases List.mem_map.mp this with ⟨x, hx, rfl⟩
      simpa using hx
    have hmmem : (ofLex (t0.getLastD h0) : Int × Int) ∈ ivs := by
      have h1 : t0.getLastD h0 ∈ h0 :: t0 := getLastD_mem t0 h0
      have : t0.getLastD h0 ∈ ivs.map (toLex : Int × Int → Int ×ₗ Int) := by
        have h2 : t0.getLastD h0 ∈ sortAsc (ivs.map toLex) := by
          rw [hS]; exact h1
        exact mem_sortAsc.mp h2
      rcases List.mem_map.mp this with ⟨x, hx, hxe⟩
      rw [← hxe]
      simpa using hx
    have hmin : ∀ iv ∈ ivs, h0 ≤ toLex iv := by
      intro iv hiv
      exact sortAsc_head_min hS (List.mem_map_of_mem _ hiv)
    have hmax : ∀ iv ∈ ivs, toLex iv ≤ t0.getLastD h0 := by
      intro iv hiv
      exact sortAsc_last_max hS (List.mem_map_of_mem _ hiv)
    rw [hlast, hfirst, decide_eq_true_eq]
    constructor
    · rintro ⟨hf, hl⟩
      refine ⟨⟨ofLex h0, hh0mem, hf⟩,
        ofLex (t0.getLastD h0), hmmem, ?_, hl⟩
      intro jv hjv
      simpa using hmax jv hjv
    · rintro ⟨⟨iv1, hiv1, hlt1⟩, iv2, hiv2, hmax2, hlt2⟩
      constructor
      · have h1 : h0 ≤ toLex iv1 := hmin iv1 hiv1
        have h2 : (ofLex h0).1 ≤ iv1.1 := by
          rcases (Prod.Lex.le_iff (ofLex h0) iv1).mp (by simpa using h1)
            with h | ⟨h, -⟩
          · exact le_of_lt h
          · exact le_of_eq h
        exact lt_of_le_of_lt h2 hlt1
      · have h1 : toLex iv2 ≤ t0.getLastD h0 := hmax iv2 hiv2
        have h2 : t0.getLastD h0 ≤ toLex iv2 := by
          simpa using hmax2 (ofLex (t0.getLastD h0)) hmmem
        have h3 : t0.getLastD h0 = toLex iv2 := le_antisymm h2 h1
        have h4 : (ofLex (t0.getLastD h0) : Int × Int) = iv2 := by
          rw [h3]; simp
        rw [h4]
        exact hlt2

/-! ### The claims -/

/-- C1: `add_reads_to_clusters` assigns consecutive cluster ids starting
at the passed `next_cluster_id`, in emission order, and returns the
counter increased by exactly the number of emitted clusters; the caller's
loop threads the returned counter from 0 through the loci, so across the
whole run the emitted ids are exactly `0 .. total-1` - strictly
increasing and never repeated across loci or (strand, orientation)
buckets. -/
theorem c1_cluster_ids_globally_unique (reads : List DRead) (n : Nat)
    (loci : List (List DRead)) :
    ((add_reads_to_clusters reads n).1.map (fun r => r.cluster_id)
        = List.range' n (add_reads_to_clusters reads n).1.length)
    ∧ (add_reads_to_clusters reads n).2
        = n + (add_reads_to_clusters reads n).1.length
    ∧ ((clusterRun loci 0).1.map (fun r => r.cluster_id)
        = List.range (clusterRun loci 0).1.length)
    ∧ ((clusterRun loci 0).1.map (fun r => r.cluster_id)).Pairwise (· < ·)
    ∧ ((clusterRun loci 0).1.map (fun r => r.cluster_id)).Nodup := by
  rcases add_reads_to_clusters_ids reads n with ⟨h1, h2⟩
  have hrun := clusterRun_ids_aux loci [] 0 (by simp)
  have hm : (clusterRun loci 0).1.map (fun r => r.cluster_id)
      = List.range (clusterRun loci 0).1.length := by
    rw [List.range_eq_range']
    exact hrun.1
  refine ⟨h1, h2, hm, ?_, ?_⟩
  · rw [hm]; exact List.pairwise_lt_range _
  · rw [hm]; exact List.nodup_range _

/-- C2 counterexample: a record stream that violates the
(reference id, start) sort order - the second record starts before the
first on the same reference - is not rejected: `cluster_loci` silently
partitions it into two loci and raises nothing, contradicting the claim
that a sort-key regression is a fatal UnsortedInputError. -/
theorem c2_counterexample :
    (c2ReadLow.pos < c2ReadHigh.pos ∧ c2ReadLow.rname = c2ReadHigh.rname)
    ∧ cluster_loci [c2ReadHigh, c2ReadLow]
        = Except.ok [[c2ReadHigh], [c2ReadLow]] := by
  constructor
  · exact ⟨by decide, rfl⟩
  · rfl

/-- C2 (amended): `cluster_loci` performs no sortedness check at all: on
any non-empty record stream, sorted or not, it succeeds and silently
partitions the records into windows by the sliding-window overlap rule -
a sort-key regression is never detected and no error is raised. -/
theorem c2_no_sortedness_check (records : List DRead) (h : records ≠ []) :
    ∃ loci, cluster_loci records = Except.ok loci ∧
      loci.flatten = records := by
  rcases cluster_loci_ok records h with ⟨loci, h1, h2, -⟩
  exact ⟨loci, h1, h2⟩

/-- C2 witness: the amended statement applied to the unsorted two-record
stream of the counterexample. -/
theorem c2_witness :
    ∃ loci, cluster_loci [c2ReadHigh, c2ReadLow] = Except.ok loci ∧
      loci.flatten = [c2ReadHigh, c2ReadLow] :=
  c2_no_sortedness_check [c2ReadHigh, c2ReadLow] (by decide)

/-- C3: after the four filters, a candidate name is in the output of
`get_highest_coverage_isoforms` iff some surviving candidate with that
name has a (unique spanning positions, weighted coverage, fragment count)
tuple that is a lexicographic maximum of its
(5' cluster, 3' cluster, 5' genome breakpoint, 3' genome breakpoint)
group - so all candidates tied for a group's maximum are kept, and the
output is the union of the retained names over all groups. -/
theorem c3_highest_coverage_selection (cs : List Chimera)
    (txCluster : String → Nat) (txGenomePos : String → Int → String × Int)
    (n : String) :
    n ∈ get_highest_coverage_isoforms cs txCluster txGenomePos ↔
      ∃ c ∈ cs, c.name = n ∧
        ∀ c' ∈ cs, chimeraKey txCluster txGenomePos c'
            = chimeraKey txCluster txGenomePos c →
          chimeraTriple c' ≤ chimeraTriple c := by
  unfold get_highest_coverage_isoforms
  rw [mem_foldl_append (keptForKey cs txCluster txGenomePos)]
  simp only [List.not_mem_nil, false_or]
  constructor
  · rintro ⟨k, hk, hmem⟩
    rcases mem_keptForKey.mp hmem with ⟨c, hc, hkey, hname, hmax⟩
    refine ⟨c, hc, hname, ?_⟩
    intro c' hc' hkeq
    exact hmax c' hc' (by rw [hkeq, hkey])
  · rintro ⟨c, hc, hname, hmax⟩
    refine ⟨chimeraKey txCluster txGenomePos c, ?_, ?_⟩
    · exact List.mem_dedup.mpr (List.mem_map_of_mem _ hc)
    · exact mem_keptForKey.mpr
        ⟨c, hc, rfl, hname, fun c' hc' hk => hmax c' hc' hk⟩

/-- C4: the inner-distance filter passes a candidate iff `max_isize ≤ 0`,
or both partners' inner distances are at most `max_isize`; in particular
every candidate passes when `max_isize ≤ 0`. -/
theorem c4_inner_dist_filter (c : Chimera) (max_isize : Int) :
    filter_inner_dist c max_isize = true ↔
      (max_isize ≤ 0 ∨ (c.partner5p.inner_dist ≤ max_isize ∧
        c.partner3p.inner_dist ≤ max_isize)) := by
  by_cases h1 : max_isize ≤ 0
  · simp [filter_inner_dist, h1]
  · by_cases h2 : c.partner5p.inner_dist > max_isize
    · simp only [filter_inner_dist, if_neg h1, if_pos h2]
      constructor
      · intro h; exact absurd h (by simp)
      · intro h; omega
    · by_cases h3 : c.partner3p.inner_dist > max_isize
      · simp only [filter_inner_dist, if_neg h1, if_neg h2, if_pos h3]
        constructor
        · intro h; exact absurd h (by simp)
        · intro h; omega
      · simp only [filter_inner_dist, if_neg h1, if_neg h2, if_neg h3]
        constructor
        · intro _; omega
        · intro _; trivial

/-- C5: after the numeric filters pass, the blacklist step removes a
candidate iff its exact `(tx5p, bp5p, tx3p, bp3p)` tuple is a member of
the false-positive set parsed from the blacklist file; a candidate whose
tuple is not an exact member is never removed by this step. -/
theorem c5_blacklist_filter (c : Chimera) (threshold : ℚ) (max_isize : Int)
    (rows : List (String × String × String × String))
    (fp : List (String × Int × String × Int)) (frac : ℚ)
    (median_isize rlen : Int) (reads : List WtRead)
    (_hp : read_false_pos_file rows = some fp)
    (h1 : filter_weighted_frags c threshold = true)
    (h2 : filter_inner_dist c max_isize = true)
    (h3 : filter_chimeric_isoform_fraction c frac median_isize rlen reads
        = true) :
    (chimera_good c threshold max_isize fp frac median_isize rlen reads
        = true ↔ false_pos_key c ∉ fp) := by
  by_cases hmem : false_pos_key c ∈ fp
  · simp [chimera_good, h1, h2, h3, hmem]
  · simp [chimera_good, h1, h2, h3, hmem]

/-- C5 witness: a concrete candidate passing every numeric filter,
against the parsed one-line blacklist holding exactly its breakpoint
tuple. -/
theorem c5_witness :
    read_false_pos_file c5Rows = some c5FalsePos
    ∧ filter_weighted_frags c5Chimera 3 = true
    ∧ filter_inner_dist c5Chimera 0 = true
    ∧ filter_chimeric_isoform_fraction c5Chimera 0 200 100 [] = true
    ∧ (chimera_good c5Chimera 3 0 c5FalsePos 0 200 100 [] = true
        ↔ false_pos_key c5Chimera ∉ c5FalsePos) :=
  ⟨by rfl, by rfl, by rfl,
   by
    simp only [filter_chimeric_isoform_fraction, fetchReads]
    norm_num,
   c5_blacklist_filter c5Chimera 3 0 c5Rows c5FalsePos 0 200 100 []
     (by rfl) (by rfl) (by rfl)
     (by
      simp only [filter_chimeric_isoform_fraction, fetchReads]
      norm_num)⟩

/-- Helper for the amended C6: the wild-type fragment count computed
inside `filter_chimeric_isoform_fraction` equals
`amended_wildtype_frag_count`. -/
theorem code_wildtype_count_eq (bp median_isize rlen : Int)
    (reads : List WtRead) :
    (((fetchReads reads (max 0 (bp - median_isize))
          (min rlen (bp + median_isize))).map (fun r => r.qname)).dedup.filter
        (fun q => straddlesBreakpoint bp
          (fragIntervals (fetchReads reads (max 0 (bp - median_isize))
            (min rlen (bp + median_isize))) q))).length
      = amended_wildtype_frag_count bp median_isize rlen reads := by
  unfold amended_wildtype_frag_count
  congr 1
  apply List.filter_congr
  intro q hq
  rw [Bool.eq_iff_iff, straddles_iff, decide_eq_true_eq]

/-- C6 counterexample: with breakpoint 50, `median_isize = 100`,
transcript length 200 and `isoform_fraction = 7/10`, fragment `a` has
intervals (0,100) and (5,10): its minimum start 0 and maximum end 100
strictly straddle the breakpoint, so the claim counts it wild-type
(2 wild-type fragments, ratio 1/2 < 7/10, filter fails); the code instead
tests the end of the lexicographically last interval (5,10), does not
count `a` (1 wild-type fragment, ratio 1 ≥ 7/10), and passes the
candidate. -/
theorem c6_counterexample :
    filter_chimeric_isoform_fraction c6Chimera (7/10) 100 200 c6Reads = true
    ∧ ¬ ((c6Chimera.num_frags : ℚ) /
          (max (claim_wildtype_frag_count c6Chimera.partner5p.«end» 100 200
            c6Reads) 1 : Nat) ≥ 7/10) := by
  constructor
  · simp only [filter_chimeric_isoform_fraction]
    rw [decide_eq_true_eq, code_wildtype_count_eq]
    rw [show amended_wildtype_frag_count c6Chimera.partner5p.«end» 100 200
      c6Reads = 1 from rfl]
    rw [show c6Chimera.num_frags = 1 from rfl]
    norm_num
  · intro hge
    rw [show claim_wildtype_frag_count c6Chimera.partner5p.«end» 100 200
      c6Reads = 2 from rfl] at hge
    rw [show c6Chimera.num_frags = 1 from rfl] at hge
    norm_num at hge

/-- C6 (amended): the wild-type isoform filter passes iff
`chimeric_fragment_count / max(wildtype_fragment_count, 1) ≥
isoform_fraction`, where a fetched fragment counts as wild-type iff some
of its intervals starts before the breakpoint and the lexicographically
greatest of its (start, end) intervals ends after the breakpoint (the
code reads `sorted_intervals[-1][1]`, not the maximum end). -/
theorem c6_isoform_fraction_amended (c : Chimera) (frac : ℚ)
    (median_isize rlen : Int) (reads : List WtRead) :
    filter_chimeric_isoform_fraction c frac median_isize rlen reads = true ↔
      frac ≤ (c.num_frags : ℚ) /
        (max (amended_wildtype_frag_count c.partner5p.«end» median_isize rlen
          reads) 1 : Nat) := by
  simp only [filter_chimeric_isoform_fraction]
  rw [decide_eq_true_eq, code_wildtype_count_eq]

/-- C7: `cluster_loci` partitions a non-empty sorted stream into loci by
the sliding window; on the spec's three records (chr1,0,10), (chr1,5,15),
(chr1,50,60) it yields exactly the two loci {rec1, rec2} and {rec3}, and
on every non-empty stream it succeeds, the loci concatenate back to the
input in order, and no locus is empty. -/
theorem c7_sliding_window_partition :
    (cluster_loci [c7Read1, c7Read2, c7Read3]
        = Except.ok [[c7Read1, c7Read2], [c7Read3]])
    ∧ ∀ (records : List DRead), records ≠ [] →
        ∃ loci, cluster_loci records = Except.ok loci ∧
          loci.flatten = records ∧ ∀ w ∈ loci, w ≠ [] := by
  constructor
  · rfl
  · exact cluster_loci_ok

/-- C7 witness: the partition statement applied to a concrete singleton
stream. -/
theorem c7_witness :
    ∃ loci, cluster_loci [c7Read1] = Except.ok loci ∧
      loci.flatten = [c7Read1] ∧ ∀ w ∈ loci, w ≠ [] :=
  c7_sliding_window_partition.2 [c7Read1] (by decide)

/-- C8: inserting the intervals [5,10], [9,14], [20,25] (labels 0, 1, 2)
into one interval cluster tree in any of the six possible orders yields
exactly two clusters: [5,14] holding labels 0 and 1, and [20,25] holding
label 2. -/
theorem c8_merge_order_independent :
    ((insertAll [(5, 10, 0), (9, 14, 1), (20, 25, 2)]).getregions
        = [(5, 14, [0, 1]), (20, 25, [2])])
    ∧ ((insertAll [(5, 10, 0), (20, 25, 2), (9, 14, 1)]).getregions
        = [(5, 14, [0, 1]), (20, 25, [2])])
    ∧ ((insertAll [(9, 14, 1), (5, 10, 0), (20, 25, 2)]).getregions
        = [(5, 14, [0, 1]), (20, 25, [2])])
    ∧ ((insertAll [(9, 14, 1), (20, 25, 2), (5, 10, 0)]).getregions
        = [(5, 14, [0, 1]), (20, 25, [2])])
    ∧ ((insertAll [(20, 25, 2), (5, 10, 0), (9, 14, 1)]).getregions
        = [(5, 14, [0, 1]), (20, 25, [2])])
    ∧ ((insertAll [(20, 25, 2), (9, 14, 1), (5, 10, 0)]).getregions
        = [(5, 14, [0, 1]), (20, 25, [2])]) := by
  refine ⟨?_, ?_, ?_, ?_, ?_, ?_⟩ <;> decide

set_option maxHeartbeats 1600000 in
/-- C9: for every iteration count, running the body of
`cluster_discordant_reads` raises NameError with no write ever performed:
the loop head evaluates the unbound name `bamfh`, which is neither a
parameter, nor assigned anywhere in the function, nor a module global. -/
theorem c9_bamfh_name_error (iters : Nat) :
    (runCDR iters).writes = []
    ∧ (runCDR iters).err = some PyError.nameError
    ∧ "bamfh" ∉ cdrParams ++ cdrModuleGlobals ++ cdrBody.flatMap topTargets := by
  refine ⟨?_, ?_, by decide⟩ <;>
  · simp [runCDR, runTopList, cdrBody, cdrParams, cdrModuleGlobals,
      runTop, runMid, runMidList, runSimple, runSimpleList, runSimpleLoop,
      runMidLoop, evalNames, useName, bindName, emitWrite]

/-- C10: applied to an empty record stream, `cluster_loci` raises
NameError (the `len(window) > 0` check reads the local `window`, which
the swallowed StopIteration left unbound) instead of yielding an empty
sequence of loci. -/
theorem c10_empty_stream_name_error :
    cluster_loci ([] : List DRead) = Except.error PyError.nameError := rfl
